import Mathlib

/-!
# Verification of the luarena arena-battle simulation engine

This file is a shallow embedding, in Lean 4, of the deterministic
event-sourced simulation core of the `luarena` repository
(`src/game.rs`, `src/math_utils.rs`, `src/settings.rs`, `src/player.rs`),
together with theorems settling the frozen claims about it.

Modelling conventions:
* Rust `f32` values are modelled as rationals (`ℚ`).  `f32` literals are
  mapped to their decimal values (`0.1 ↦ 1/10`, `2.5 ↦ 5/2`, ...); the
  constant `π` is mapped to the exact rational value of the `f32`
  constant `std::f32::consts::PI = 13176795/4194304`.
* The transcendental functions `sin`, `cos`, `atan`, `atan2` and `sqrt`
  of `f32` have no rational counterpart; they are modelled as an
  uninterpreted "oracle" (`RealFuns`), a record of functions threaded
  through every definition that calls them.  All structural claims are
  proved for every oracle; concrete witnesses instantiate the oracle
  with honest values at the inputs they use.
* Rust `u8`/`u32`/`usize` counters (ids, attack cooldown, tick and
  round counters) never approach their overflow bounds in the modelled
  code paths and are modelled as `Nat`.
* `HashMap<u8, _>` containers are modelled as association lists in the
  map's (unspecified but fixed) iteration order; `HashMap` key
  uniqueness becomes a `Nodup` hypothesis on the stored ids.
  The per-id `player_states` and `impls` maps of `Game` always share
  the same key set (both are only ever filled by `add_lua_player`), so
  they are merged into a single list of `PlayerEntry` records.
* Rust code that panics on a missing id (`.unwrap()`/`.expect(..)`) is
  modelled by the corresponding total function that leaves the state
  unchanged when the id is absent; every theorem only exercises the
  present-id case.
-/

namespace Luarena

/-! ## math_utils.rs -/

/-- The `f32` value of `std::f32::consts::PI` (exact rational value of the
32-bit float). From `math_utils.rs`: `pub const PI: f32 = std::f32::consts::PI`. -/
def PI : ℚ := 13176795 / 4194304

/-- `pub const HALF_PI: f32 = PI / 2.0` (exact: halving is exact in binary FP). -/
def HALF_PI : ℚ := PI / 2

/-- `pub const TWO_PI: f32 = PI * 2.0` (exact: doubling is exact in binary FP). -/
def TWO_PI : ℚ := PI * 2

/-- `struct Point { x: f32, y: f32 }` from `math_utils.rs`. -/
structure Point where
  x : ℚ
  y : ℚ
  deriving DecidableEq, Repr

/-- `Point::dist_sqr`: `dx*dx + dy*dy`. -/
def Point.dist_sqr (p q : Point) : ℚ :=
  (p.x - q.x) * (p.x - q.x) + (p.y - q.y) * (p.y - q.y)

/-- `Point::add`. -/
def Point.add (p q : Point) : Point :=
  { x := p.x + q.x, y := p.y + q.y }

/-- `Point::zero`. -/
def Point.zero : Point := { x := 0, y := 0 }

/-- The functions of `f32` arithmetic that have no rational counterpart
(`sin`, `cos`, `atan`, `atan2`, `sqrt`), modelled as an uninterpreted
record of rational functions ("oracle"). -/
structure RealFuns where
  sin : ℚ → ℚ
  cos : ℚ → ℚ
  atan : ℚ → ℚ
  atan2 : ℚ → ℚ → ℚ
  sqrt : ℚ → ℚ

/-- `Point::dist`: `self.dist_sqr(p).sqrt()`. -/
def Point.dist (R : RealFuns) (p q : Point) : ℚ :=
  R.sqrt (p.dist_sqr q)

/-- `math_utils::line_endpoint`: walk `len` from `(x, y)` in direction
`angle` (`dx = sin(angle)*len`, `dy = -cos(angle)*len`). -/
def line_endpoint (R : RealFuns) (x y len angle : ℚ) : Point :=
  { x := x + R.sin angle * len, y := y + (-(R.cos angle)) * len }

/-- `math_utils::clamp`: `f32::min(f32::max(lower, x), upper)`. -/
def clamp (x lower upper : ℚ) : ℚ :=
  min (max lower x) upper

/-- `math_utils::angle_between`: `atan2(dy, dx) + HALF_PI`. -/
def angle_between (R : RealFuns) (p q : Point) : ℚ :=
  R.atan2 (q.y - p.y) (q.x - p.x) + HALF_PI

theorem TWO_PI_pos : 0 < TWO_PI := by norm_num [TWO_PI, PI]

/-- `math_utils::normalize_absolute_angle`: repeatedly shift by `2π`
into `[0, 2π)`.  The Rust source recurses; the recursion terminates
because `|⌊angle / 2π⌋|` decreases. -/
def normalize_absolute_angle (angle : ℚ) : ℚ :=
  if TWO_PI ≤ angle then normalize_absolute_angle (angle - TWO_PI)
  else if angle < 0 then normalize_absolute_angle (angle + TWO_PI)
  else angle
termination_by (⌊angle / TWO_PI⌋).natAbs
decreasing_by
  · have h2 : (0:ℚ) < TWO_PI := TWO_PI_pos
    have h1 : (1:ℚ) ≤ angle / TWO_PI := (le_div_iff₀ h2).2 (by linarith)
    have hfl : ⌊(angle - TWO_PI) / TWO_PI⌋ = ⌊angle / TWO_PI⌋ - 1 := by
      rw [sub_div, div_self (ne_of_gt h2)]
      exact Int.floor_sub_one _
    have hge : (1:ℤ) ≤ ⌊angle / TWO_PI⌋ := by exact_mod_cast Int.le_floor.2 (by exact_mod_cast h1)
    rw [hfl]
    omega
  · have h2 : (0:ℚ) < TWO_PI := TWO_PI_pos
    have h1 : angle / TWO_PI < 0 := div_neg_of_neg_of_pos (by linarith) h2
    have hfl : ⌊(angle + TWO_PI) / TWO_PI⌋ = ⌊angle / TWO_PI⌋ + 1 := by
      rw [add_div, div_self (ne_of_gt h2)]
      exact Int.floor_add_one _
    have hlt : ⌊angle / TWO_PI⌋ < 0 := Int.floor_lt.2 (by exact_mod_cast h1)
    rw [hfl]
    omega

/-- `math_utils::Sector { angle, delta }`: an angular cone given by its
center angle and half-width. -/
structure Sector where
  angle : ℚ
  delta : ℚ
  deriving DecidableEq, Repr

/-- `Sector::new`. -/
def Sector.new (angle delta : ℚ) : Sector := { angle := angle, delta := delta }

/-- `Sector::left`: `angle - delta`. -/
def Sector.left (s : Sector) : ℚ := s.angle - s.delta

/-- `Sector::right`: `angle + delta`. -/
def Sector.right (s : Sector) : ℚ := s.angle + s.delta

/-- The inner helper `is_between` of `Sector::overlaps`: membership of
`x` in the (possibly wrapping) arc from `a` to `b`. -/
def is_between (x a b : ℚ) : Bool :=
  if a ≤ b then decide (a ≤ x ∧ x ≤ b) else decide (a ≤ x ∨ x ≤ b)

/-- `Sector::overlaps`: four-way containment check on the normalized
edges of both sectors. -/
def Sector.overlaps (s other : Sector) : Bool :=
  let sl := normalize_absolute_angle s.left
  let sr := normalize_absolute_angle s.right
  let ol := normalize_absolute_angle other.left
  let or' := normalize_absolute_angle other.right
  is_between sl ol or' || is_between sr ol or' ||
    is_between ol sl sr || is_between or' sl sr

/-! ## settings.rs

`f32` literal constants are mapped to their decimal values (see the
header comment); the game code imports them with `use crate::settings::*`
under the names used below (the player radius constant is named
`PLAYER_RADIUS` at its use sites in `game.rs`, value `25.0`). -/

def INITIAL_HP : ℚ := 100
def MAX_TURN_RATE : ℚ := 5 / 100
def MAX_HEAD_TURN_RATE : ℚ := 1 / 10
def MAX_ARMS_TURN_RATE : ℚ := 8 / 100
def ANGLE_OF_VISION : ℚ := (9 / 10) * HALF_PI
def ANGLE_OF_ACTION : ℚ := HALF_PI
def PLAYER_RADIUS : ℚ := 25
def ATTACK_RADIUS : ℚ := 4
def ATTACK_DAMAGE : ℚ := 10
def ATTACK_COOLDOWN : Nat := 35
def WIDTH : ℚ := 1600
def HEIGHT : ℚ := 1200
def MAX_VELOCITY : ℚ := 1

/-! ## player.rs: the agent-facing protocol

`game.rs` imports `MovementDirection`, `PlayerCommand`, `PlayerCommands`,
`PlayerEvent`, `PlayerEventError` and the `PlayerImpl` trait from
`crate::player`; the variants below are those constructed and matched in
`game.rs`, and `PlayerCommand.index` follows `Command::index` in
`src/player.rs`. -/

inductive MovementDirection where
  | Forward
  | Backward
  | Left
  | Right
  deriving DecidableEq, Repr

inductive PlayerCommand where
  | Move (dir : MovementDirection) (dist : ℚ)
  | Attack
  | Turn (angle : ℚ)
  | TurnHead (angle : ℚ)
  | TurnArms (angle : ℚ)
  deriving DecidableEq, Repr

/-- `Command::index`: the fixed priority of each command kind. -/
def PlayerCommand.index : PlayerCommand → ℤ
  | .Move _ _ => 0
  | .Attack => 1
  | .Turn _ => 2
  | .TurnHead _ => 3
  | .TurnArms _ => 4

/-- `struct PlayerCommands { value: Vec<PlayerCommand> }`. -/
structure PlayerCommands where
  value : List PlayerCommand
  deriving DecidableEq, Repr

def PlayerCommands.none : PlayerCommands := { value := [] }

/-- The character-facing projection of game events (`PlayerEvent`). -/
inductive PlayerEvent where
  | Tick (n : Nat)
  | RoundStarted (round : Nat)
  | EnemySeen (name : String) (pos : Point)
  | HitBy (id : Nat)
  | AttackHit (id : Nat) (pos : Point)
  | Death
  deriving DecidableEq, Repr

/-- `struct PlayerEventError { message: String }`. -/
structure PlayerEventError where
  message : String
  deriving DecidableEq, Repr

/-! ## game.rs: data model -/

/-- `struct Color` (`game.rs`). -/
structure Color where
  red : Nat
  green : Nat
  blue : Nat
  deriving DecidableEq, Repr

/-- `struct PlayerMeta` (`game.rs`); loaded from `meta.lua` by I/O code
that is out of scope here. -/
structure PlayerMeta where
  name : String
  color : Color
  version : String
  entrypoint : String
  deriving DecidableEq, Repr

/-- `struct PlayerIntent` (`game.rs`). -/
structure PlayerIntent where
  direction : MovementDirection
  distance : ℚ
  attack : Bool
  turn_angle : ℚ
  turn_head_angle : ℚ
  turn_arms_angle : ℚ
  deriving DecidableEq, Repr

/-- `PlayerIntent::default()`. -/
def PlayerIntent.default : PlayerIntent :=
  { direction := .Forward, distance := 0, attack := false,
    turn_angle := 0, turn_head_angle := 0, turn_arms_angle := 0 }

/-- `struct Attack` (`game.rs`): a projectile. -/
structure Attack where
  id : Nat
  pos : Point
  owner : Nat
  heading : ℚ
  velocity : ℚ
  deriving DecidableEq, Repr

/-- `enum RoundState` (`game.rs`). -/
inductive RoundState where
  | Ongoing
  | Won (id : Nat)
  | Draw
  deriving DecidableEq, Repr

/-- One character of the game, merging the entry of `Game::player_states`
(a `PlayerState`: id, hp, meta, position, the three headings, cooldown)
with the entry of `Game::impls` for the same id (a `Player`: the boxed
`PlayerImpl` and the `PlayerIntent`).  The two `HashMap`s always share
the same key set, so one association list keyed by `id` models both; the
boxed trait object `Box<dyn PlayerImpl>` is modelled by its `on_event`
method. -/
structure PlayerEntry where
  id : Nat
  hp : ℚ
  meta : PlayerMeta
  pos : Point
  heading : ℚ
  head_heading : ℚ
  arms_heading : ℚ
  attack_cooldown : Nat
  onEvent : PlayerEvent → Except PlayerEventError PlayerCommands
  intent : PlayerIntent

/-- `PlayerState::effective_head_heading`. -/
def PlayerEntry.effective_head_heading (e : PlayerEntry) : ℚ :=
  normalize_absolute_angle (e.heading + e.head_heading)

/-- `PlayerState::effective_arms_heading`. -/
def PlayerEntry.effective_arms_heading (e : PlayerEntry) : ℚ :=
  normalize_absolute_angle (e.heading + e.arms_heading)

/-- `PlayerState::alive`: `hp > 0.0`. -/
def PlayerEntry.alive (e : PlayerEntry) : Bool :=
  decide (0 < e.hp)

/-- `struct Delta { value: Point }` (`game.rs`). -/
structure Delta where
  value : Point
  deriving DecidableEq, Repr

/-- `Delta::new`. -/
def Delta.new (value : Point) : Delta := { value := value }

/-- `enum GameEvent` (`game.rs`).  `RoundStarted` carries the initial
`(id, position, meta)` list. -/
inductive GameEvent where
  | Tick (n : Nat)
  | RoundStarted (round : Nat) (players : List (Nat × Point × PlayerMeta))
  | RoundOver (winner : Option Nat)
  | PlayerHeadTurned (id : Nat) (delta : ℚ)
  | PlayerArmsTurned (id : Nat) (delta : ℚ)
  | Hit (attackId : Nat) (owner : Nat) (victim : Nat) (pos : Point)
  | AttackAdvanced (id : Nat) (pos : Point)
  | AttackMissed (id : Nat)
  | AttackCreated (owner : Nat) (attack : Attack)
  | PlayerPositionUpdated (id : Nat) (delta : Delta)
  | PlayerTurned (id : Nat) (delta : ℚ)
  deriving DecidableEq, Repr

/-- `struct Game` (`game.rs`): `player_states`/`impls` merged into
`players` (see `PlayerEntry`), `attack_ids` is the `Ids` counter. -/
structure Game where
  tick : Nat
  round : Nat
  players : List PlayerEntry
  attacks : List Attack
  round_state : RoundState
  attack_ids : Nat

/-- `Game::living_players`: the players with `hp > 0`, in map iteration
order. -/
def Game.living_players (g : Game) : List PlayerEntry :=
  g.players.filter (fun p => p.alive)

/-- `struct StepEvents` (`game.rs`). -/
structure StepEvents where
  events : List GameEvent
  deriving DecidableEq, Repr

/-- `struct EventManager` (`game.rs`). -/
structure EventManager where
  current_events : StepEvents
  all_events : List StepEvents
  deriving DecidableEq, Repr

/-- `EventManager::record`: append to the open batch. -/
def EventManager.record (em : EventManager) (event : GameEvent) : EventManager :=
  { em with current_events := { events := em.current_events.events ++ [event] } }

/-- Record a list of events in order (a sequence of `record` calls). -/
def EventManager.recordAll (em : EventManager) (events : List GameEvent) : EventManager :=
  { em with current_events := { events := em.current_events.events ++ events } }

/-- `EventManager::init_tick`: push the previous batch into history and
open the new one; tick 0 appends the `Tick` event to the batch seeded by
`init_round` instead of replacing it. -/
def EventManager.init_tick (em : EventManager) (tick : Nat) : EventManager :=
  let em' : EventManager := { em with all_events := em.all_events ++ [em.current_events] }
  if tick = 0 then
    em'.record (.Tick tick)
  else
    { em' with current_events := { events := [.Tick tick] } }

/-! ## game.rs: per-tick stages

Each stage only *records* events, so (with the exception of the attack-id
counter in `create_attacks`) the stages are functions from the game state
to the list of events they record, in recording order. -/

/-- `game::valid_position`: inside the arena reduced by the player-radius
margin. -/
def valid_position (p : Point) : Bool :=
  decide (PLAYER_RADIUS ≤ p.x) && decide (p.x ≤ WIDTH - PLAYER_RADIUS) &&
    decide (PLAYER_RADIUS ≤ p.y) && decide (p.y ≤ HEIGHT - PLAYER_RADIUS)

/-- `game::clamp_turn_angle`: clamp to `±ANGLE_OF_ACTION`. -/
def clamp_turn_angle (angle : ℚ) : ℚ :=
  clamp angle (-ANGLE_OF_ACTION) ANGLE_OF_ACTION

/-- `game::players_collide`: candidate positions within `2 * PLAYER_RADIUS`. -/
def players_collide (R : RealFuns) (p q : Point) : Bool :=
  decide (p.dist R q ≤ 2 * PLAYER_RADIUS)

/-- `game::inside_arena`. -/
def inside_arena (p : Point) : Bool :=
  decide (0 ≤ p.x) && decide (p.x ≤ WIDTH) && decide (0 ≤ p.y) && decide (p.y ≤ HEIGHT)

/-- Mutation of the first list entry matching a predicate: the model of
`game.player_state(id)` / `game.player(id)` / `game.attack(id)` (which
`find` the first match and mutate it; absent ids panic in Rust and are a
no-op here). -/
def updateFirst {α : Type} (p : α → Bool) (f : α → α) : List α → List α
  | [] => []
  | e :: es => if p e then f e :: es else e :: updateFirst p f es

/-- `game::transition_heads`: record the head-turn delta, clamped to the
per-tick rate and then to the angle-of-action window around the body. -/
def transition_heads (e : PlayerEntry) (turn_angle : ℚ) : List GameEvent :=
  let delta := clamp turn_angle (-MAX_HEAD_TURN_RATE) MAX_HEAD_TURN_RATE
  let current_heading := e.head_heading
  let effective_delta := clamp_turn_angle (current_heading + delta) - current_heading
  [.PlayerHeadTurned e.id effective_delta]

/-- `game::transition_arms`: the analogue for the arms heading. -/
def transition_arms (e : PlayerEntry) (turn_angle : ℚ) : List GameEvent :=
  let delta := clamp turn_angle (-MAX_ARMS_TURN_RATE) MAX_ARMS_TURN_RATE
  let current_heading := e.arms_heading
  let effective_delta := clamp_turn_angle (current_heading + delta) - current_heading
  [.PlayerArmsTurned e.id effective_delta]

/-- The body of the first loop of `game::transition_players` for one
player: the candidate `(delta, next position)` this tick, falling back to
`(zero, current position)` when the candidate is not a valid position. -/
def next_position (R : RealFuns) (e : PlayerEntry) : Delta × Point :=
  let delta := clamp e.intent.turn_angle (-MAX_TURN_RATE) MAX_TURN_RATE
  let heading := normalize_absolute_angle (e.heading + delta)
  let velocity := min e.intent.distance MAX_VELOCITY
  let dir_heading : ℚ :=
    match e.intent.direction with
    | .Forward => 0
    | .Backward => PI
    | .Left => -HALF_PI
    | .Right => HALF_PI
  let movement_heading := heading + dir_heading
  let dx := R.sin movement_heading * velocity
  let dy := -(R.cos movement_heading) * velocity
  let delta := Delta.new { x := dx, y := dy }
  let next_pos := e.pos.add delta.value
  if valid_position next_pos then (delta, next_pos) else (Delta.new Point.zero, e.pos)

/-- The events recorded by the first loop of `game::transition_players`
for one player: the body-turn delta, then the head- and arms-turn deltas. -/
def turn_events (e : PlayerEntry) : List GameEvent :=
  .PlayerTurned e.id (clamp e.intent.turn_angle (-MAX_TURN_RATE) MAX_TURN_RATE) ::
    (transition_heads e e.intent.turn_head_angle ++ transition_arms e e.intent.turn_arms_angle)

/-- The `next_positions` map of `game::transition_players` (a
`HashMap<u8, (Delta, Point)>`), as an association list in iteration
order. -/
def next_positions (R : RealFuns) (g : Game) : List (Nat × Delta × Point) :=
  g.players.map (fun e => (e.id, next_position R e))

/-- The `(delta, next)` pair looked up for a player in the
`next_positions` map by the second loop of `game::transition_players`
(the Rust `.unwrap()` cannot fail: the map was filled from the same
player list). -/
def candidate_of (nps : List (Nat × Delta × Point)) (e : PlayerEntry) :
    Delta × Point :=
  (nps.lookup e.id).getD (Delta.new Point.zero, e.pos)

/-- The `collides` flag of the second loop of `game::transition_players`:
some *other* player's candidate position is within collision distance. -/
def collides_with_any (R : RealFuns) (nps : List (Nat × Delta × Point))
    (e : PlayerEntry) : Bool :=
  nps.any (fun other =>
    decide (e.id ≠ other.1) && players_collide R (candidate_of nps e).2 other.2.2)

/-- The body of the second loop of `game::transition_players` for one
player: its position-update event, with the delta zeroed when its
candidate collides with any other player's candidate. -/
def position_update_event (R : RealFuns) (nps : List (Nat × Delta × Point))
    (e : PlayerEntry) : GameEvent :=
  if !collides_with_any R nps e then
    .PlayerPositionUpdated e.id (candidate_of nps e).1
  else
    .PlayerPositionUpdated e.id (Delta.new Point.zero)

/-- `game::transition_players`: the first loop records the three turn
events per player (and computes the candidate positions), the second
loop records exactly one position-update event per player. -/
def transition_players (R : RealFuns) (g : Game) : List GameEvent :=
  (g.players.flatMap turn_events) ++
    g.players.map (position_update_event R (next_positions R g))

/-- The recursion of `game::create_attacks` over the players, threading
the `attack_ids` counter. -/
def create_attacks_aux (ids : Nat) : List PlayerEntry → List GameEvent × Nat
  | [] => ([], ids)
  | e :: es =>
    let will_attack := e.intent.attack && decide (e.attack_cooldown = 0)
    if will_attack then
      let attack : Attack :=
        { id := ids, owner := e.id, pos := e.pos, velocity := 5 / 2,
          heading := e.effective_arms_heading }
      let rest := create_attacks_aux (ids + 1) es
      (.AttackCreated e.id attack :: rest.1, rest.2)
    else
      create_attacks_aux ids es

/-- `game::create_attacks`: record an `AttackCreated` event for every
player whose intent requests an attack while its cooldown is zero; only
the attack-id counter of the game changes. -/
def create_attacks (g : Game) : List GameEvent × Game :=
  let r := create_attacks_aux g.attack_ids g.players
  (r.1, { g with attack_ids := r.2 })

/-- `game::attack_hits_player`: the first player in the given iterator
that is not the owner and is within `ATTACK_RADIUS + PLAYER_RADIUS` of
the attack. -/
def attack_hits_player (R : RealFuns) (attack : Attack)
    (players : List PlayerEntry) : Option PlayerEntry :=
  players.find? (fun p =>
    decide (p.id ≠ attack.owner) &&
      decide (attack.pos.dist R p.pos ≤ ATTACK_RADIUS + PLAYER_RADIUS))

/-- The `next_pos` binding of `game::transition_attacks` for one attack:
one velocity-step along its fixed heading. -/
def attack_next_pos (R : RealFuns) (attack : Attack) : Point :=
  line_endpoint R attack.pos.x attack.pos.y attack.velocity attack.heading

/-- The event recorded by `game::transition_attacks` for one attack. -/
def attack_event (R : RealFuns) (g : Game) (attack : Attack) : GameEvent :=
  if inside_arena (attack_next_pos R attack) then
    match attack_hits_player R attack g.living_players with
    | some p => .Hit attack.id attack.owner p.id (attack_next_pos R attack)
    | none => .AttackAdvanced attack.id (attack_next_pos R attack)
  else
    .AttackMissed attack.id

/-- `game::transition_attacks`: one event per existing attack, in order. -/
def transition_attacks (R : RealFuns) (g : Game) : List GameEvent :=
  g.attacks.map (attack_event R g)

/-- `game::check_for_round_end`: `RoundOver None` with zero living
players, `RoundOver (Some winner)` with exactly one, nothing otherwise. -/
def check_for_round_end (g : Game) : List GameEvent :=
  match g.living_players with
  | [] => [.RoundOver none]
  | [p] => [.RoundOver (some p.id)]
  | _ => []

/-! ## game.rs: state advancement -/

/-- The effect of one recorded event on the authoritative state: the
body of the `match` in `game::advance_game_state`. -/
def advance_event (R : RealFuns) (g : Game) (ev : GameEvent) : Game :=
  match ev with
  | .Tick _ =>
    { g with
      tick := g.tick + 1,
      players := g.players.map (fun e =>
        if 0 < e.attack_cooldown then
          { e with attack_cooldown := e.attack_cooldown - 1 }
        else e) }
  | .RoundStarted _ _ => g
  | .RoundOver winner =>
    { g with round_state :=
        match winner with
        | some w => .Won w
        | none => .Draw }
  | .PlayerPositionUpdated id delta =>
    { g with players := (updateFirst (fun e => e.id == id)
        (fun e =>
          let d := e.pos.dist R Point.zero
          { e with
            pos := { x := e.pos.x + delta.value.x, y := e.pos.y + delta.value.y },
            intent := { e.intent with distance := max (e.intent.distance - d) 0 } })
        g.players) }
  | .PlayerTurned id delta =>
    { g with players := (updateFirst (fun e => e.id == id)
        (fun e =>
          { e with
            heading := normalize_absolute_angle (e.heading + delta),
            intent := { e.intent with turn_angle :=
              if |e.intent.turn_angle| < MAX_TURN_RATE then 0
              else e.intent.turn_angle - delta } })
        g.players) }
  | .PlayerHeadTurned id delta =>
    { g with players := (updateFirst (fun e => e.id == id)
        (fun e =>
          { e with
            head_heading := e.head_heading + delta,
            intent := { e.intent with turn_head_angle :=
              if |e.intent.turn_head_angle| < MAX_HEAD_TURN_RATE then 0
              else e.intent.turn_head_angle - delta } })
        g.players) }
  | .PlayerArmsTurned id delta =>
    { g with players := (updateFirst (fun e => e.id == id)
        (fun e =>
          { e with
            arms_heading := clamp_turn_angle (e.arms_heading + delta),
            intent := { e.intent with turn_arms_angle :=
              if |e.intent.turn_arms_angle| < MAX_ARMS_TURN_RATE then 0
              else e.intent.turn_arms_angle - delta } })
        g.players) }
  | .Hit attackId _ victim _ =>
    { g with
      attacks := g.attacks.eraseP (fun a => a.id == attackId),
      players := (updateFirst (fun e => e.id == victim)
        (fun e => { e with hp := e.hp - ATTACK_DAMAGE }) g.players) }
  | .AttackAdvanced id pos =>
    { g with attacks := (updateFirst (fun a => a.id == id)
        (fun a => { a with pos := pos }) g.attacks) }
  | .AttackMissed id =>
    { g with attacks := g.attacks.eraseP (fun a => a.id == id) }
  | .AttackCreated owner attack =>
    { g with
      attacks := g.attacks ++ [attack],
      players := (updateFirst (fun e => e.id == owner)
        (fun e =>
          { e with
            attack_cooldown := ATTACK_COOLDOWN,
            intent := { e.intent with attack := false } })
        g.players) }

/-- `game::advance_game_state`: fold the recorded events over the state. -/
def advance_game_state (R : RealFuns) (g : Game) (events : List GameEvent) : Game :=
  events.foldl (advance_event R) g

/-! ## game.rs: agent dispatch (`run_players`) -/

/-- `game::game_events_to_player_events`: the per-character projection of
a tick's game events. -/
def game_events_to_player_events (e : PlayerEntry) (events : List GameEvent) :
    List PlayerEvent :=
  events.flatMap (fun ev =>
    match ev with
    | .Tick n => [.Tick n]
    | .RoundStarted round _ => [.RoundStarted round]
    | .Hit _ owner victim pos =>
      if e.id = victim then
        .HitBy owner :: (if !e.alive then [.Death] else [])
      else if e.id = owner then
        [.AttackHit victim pos]
      else []
    | _ => [])

/-- `game::can_spot`: the observer's vision sector overlaps the target's
apparent angular footprint.  (In Rust `player_radius / d` is an `f32`
division, which yields `+∞` when `d = 0`; in `ℚ` it yields `0`.  The
oracle `atan` is uninterpreted, so no claim below depends on that point.) -/
def can_spot (R : RealFuns) (origin : Point) (view_angle : ℚ) (target : Point)
    (player_radius angle_of_vision : ℚ) : Bool :=
  let view_sector := Sector.new view_angle (angle_of_vision / 2)
  let d := origin.dist R target
  let alpha := R.atan (player_radius / d)
  let angle := normalize_absolute_angle (angle_between R origin target)
  let target_sector := Sector.new angle alpha
  view_sector.overlaps target_sector

/-- `game::dispatch_player_events`: call the adapter on every projected
event in order, concatenating the returned commands; the first adapter
error aborts. -/
def dispatch_player_events
    (onEvent : PlayerEvent → Except PlayerEventError PlayerCommands) :
    List PlayerEvent → Except PlayerEventError (List PlayerCommand)
  | [] => .ok []
  | e :: es =>
    match onEvent e with
    | .error err => .error err
    | .ok cmds =>
      match dispatch_player_events onEvent es with
      | .error err => .error err
      | .ok rest => .ok (cmds.value ++ rest)

/-- `game::reduce_commands`: stable sort by the command priority index
(Rust `sort_by_key` is stable; so is `List.mergeSort`). -/
def reduce_commands (commands : List PlayerCommand) : List PlayerCommand :=
  commands.mergeSort (fun c d => c.index ≤ d.index)

/-- One iteration of the command-application loop at the end of
`game::run_players`: update the intent according to one command (the
head/arms turn commands read the *current* headings of the player). -/
def apply_command (e : PlayerEntry) (intent : PlayerIntent)
    (cmd : PlayerCommand) : PlayerIntent :=
  match cmd with
  | .Attack => { intent with attack := true }
  | .Turn angle => { intent with turn_angle := angle }
  | .TurnHead angle =>
    let current := e.head_heading
    { intent with turn_head_angle := clamp_turn_angle (current + angle) - current }
  | .TurnArms angle =>
    let current := e.arms_heading
    { intent with turn_arms_angle := clamp_turn_angle (current + angle) - current }
  | .Move dir dist => { intent with direction := dir, distance := dist }

/-- The `EnemySeen` events pushed for one player by `game::run_players`,
from the snapshot of all player positions. -/
def spot_events (R : RealFuns) (positions : List (Nat × String × Point))
    (e : PlayerEntry) : List PlayerEvent :=
  positions.filterMap (fun other =>
    if other.1 ≠ e.id ∧
        can_spot R e.pos e.effective_head_heading other.2.2 PLAYER_RADIUS
          ANGLE_OF_VISION = true then
      some (.EnemySeen other.2.1 other.2.2)
    else none)

/-- The body of the loop of `game::run_players` for one player: project
the events, dispatch them to the adapter, sort the returned commands and
fold them into the intent. -/
def process_player (R : RealFuns) (positions : List (Nat × String × Point))
    (events : List GameEvent) (e : PlayerEntry) :
    Except PlayerEventError PlayerEntry :=
  let player_events := game_events_to_player_events e events ++ spot_events R positions e
  match dispatch_player_events e.onEvent player_events with
  | .error err => .error err
  | .ok commands =>
    .ok { e with intent := (reduce_commands commands).foldl (apply_command e) e.intent }

/-- The loop of `game::run_players` over the players: the first adapter
error stops the loop (`?`), leaving the remaining players' intents
untouched. -/
def run_players_aux (R : RealFuns) (positions : List (Nat × String × Point))
    (events : List GameEvent) :
    List PlayerEntry → List PlayerEntry × Option PlayerEventError
  | [] => ([], none)
  | e :: es =>
    match process_player R positions events e with
    | .error err => (e :: es, some err)
    | .ok e' =>
      let rest := run_players_aux R positions events es
      (e' :: rest.1, rest.2)

/-- `game::run_players`. -/
def run_players (R : RealFuns) (g : Game) (events : List GameEvent) :
    Game × Option PlayerEventError :=
  let positions := g.players.map (fun p => (p.id, p.meta.name, p.pos))
  let r := run_players_aux R positions events g.players
  ({ g with players := r.1 }, r.2)

/-! ## game.rs: `step` and the round loop -/

/-- `game::step`: one full tick.  Events are recorded by the stages into
the event manager, then applied to the state, then dispatched to the
adapters (whose commands update the intents); sending the batch over the
outbound channel is I/O and out of scope.  An adapter error is returned
alongside the updated state, as recorded events are already in the
manager when `run_players` fails. -/
def step (R : RealFuns) (g : Game) (em : EventManager) :
    Game × EventManager × Option PlayerEventError :=
  let em := em.init_tick g.tick
  let em := em.recordAll (check_for_round_end g)
  let em := em.recordAll (transition_players R g)
  let ca := create_attacks g
  let g := ca.2
  let em := em.recordAll ca.1
  let em := em.recordAll (transition_attacks R g)
  let step_events := em.current_events
  let g := advance_game_state R g step_events.events
  let rp := run_players R g step_events.events
  (rp.1, em, rp.2)

/-- The loop of `game::run_round`: step until the round state leaves
`Ongoing` or an adapter error propagates (`?`).  The Rust loop has no
fuel; the fuel argument only bounds the number of iterations modelled,
and every theorem below exhibits termination within the given fuel.
(The cooperative cancellation flag and the tick delay are concurrency
and real time, out of scope.) -/
def round_loop (R : RealFuns) (fuel : Nat) (g : Game) (em : EventManager) :
    Game × EventManager × Option PlayerEventError :=
  match fuel with
  | 0 => (g, em, none)
  | fuel + 1 =>
    let s := step R g em
    match s.2.2 with
    | some err => (s.1, s.2.1, some err)
    | none =>
      match s.1.round_state with
      | .Ongoing => round_loop R fuel s.1 s.2.1
      | _ => (s.1, s.2.1, none)

/-! ## Event classifiers and concrete instances

Helper definitions used to state and witness the theorems below: Boolean
classifiers for event kinds, an oracle instance that is honest at the
points the concrete games use (`sin 0 = 0`, `cos 0 = 1`, `sqrt` exact on
perfect squares via `Rat.sqrt`), and concrete players and games. -/

/-- Does this event report the fate of attack `aid` this tick
(`Hit`, `AttackAdvanced` or `AttackMissed`)? -/
def event_is_for_attack (aid : Nat) : GameEvent → Bool
  | .Hit aid' _ _ _ => aid' == aid
  | .AttackAdvanced aid' _ => aid' == aid
  | .AttackMissed aid' => aid' == aid
  | _ => false

/-- Is this event a position update for player `id`? -/
def is_pos_update (id : Nat) : GameEvent → Bool
  | .PlayerPositionUpdated i _ => i == id
  | _ => false

/-- Is this event a round-ended event? -/
def is_round_over : GameEvent → Bool
  | .RoundOver _ => true
  | _ => false

/-- A concrete oracle: honest at every point where the concrete games
below evaluate it (`sin 0 = 0`, `cos 0 = 1`, and the square roots of the
perfect squares `9` and `900` that arise there; `√9 = 3`, `√900 = 30`). -/
def demoR : RealFuns :=
  { sin := fun _ => 0, cos := fun _ => 1, atan := fun _ => 0,
    atan2 := fun _ _ => 0,
    sqrt := fun q => if q = 9 then 3 else if q = 900 then 30 else 0 }

/-- A concrete metadata record. -/
def demoMeta : PlayerMeta :=
  { name := "demo", color := { red := 0, green := 0, blue := 0 },
    version := "1.0", entrypoint := "main.lua" }

/-- A concrete adapter that ignores every event (the mandated default
behavior for unhandled events). -/
def idleImpl : PlayerEvent → Except PlayerEventError PlayerCommands :=
  fun _ => .ok PlayerCommands.none

/-- A concrete player entry, default in every field. -/
def baseEntry : PlayerEntry :=
  { id := 0, hp := INITIAL_HP, meta := demoMeta, pos := Point.zero,
    heading := 0, head_heading := 0, arms_heading := 0, attack_cooldown := 0,
    onEvent := idleImpl, intent := PlayerIntent.default }

/-- A concrete game holding the given players and nothing else. -/
def mkGame (players : List PlayerEntry) : Game :=
  { tick := 3, round := 1, players := players, attacks := [],
    round_state := .Ongoing, attack_ids := 0 }

/-- A fresh event manager. -/
def emptyEM : EventManager :=
  { current_events := { events := [] }, all_events := [] }

/-- A concrete victim standing at `(100, 103)`. -/
def c5victim : PlayerEntry :=
  { baseEntry with id := 1, pos := { x := 100, y := 103 } }

/-- A concrete projectile at `(100, 100)` owned by player `0`, heading
`0` (straight up on screen), at the fixed velocity `2.5`. -/
def c5attack : Attack :=
  { id := 5, pos := { x := 100, y := 100 }, owner := 0, heading := 0,
    velocity := 5 / 2 }

/-- A concrete game with the owner, the victim and the projectile. -/
def c5game : Game :=
  { mkGame [baseEntry, c5victim] with attacks := [c5attack] }

/-- A concrete player at `(18, 24)` (distance `30` from the origin, so
the oracle square root is exact) wanting to move `5` forward; any
candidate position is outside the reduced arena bounds
(`x ≤ 19 < PLAYER_RADIUS`). -/
def c1entry : PlayerEntry :=
  { baseEntry with
    pos := { x := 18, y := 24 }
    intent := { PlayerIntent.default with distance := 5 } }

/-- The one-player game around `c1entry`. -/
def c1game : Game := mkGame [c1entry]

/-! ## Basic facts about the embedded definitions -/

theorem ANGLE_OF_ACTION_pos : 0 < ANGLE_OF_ACTION := by
  norm_num [ANGLE_OF_ACTION, HALF_PI, PI]

theorem MAX_HEAD_TURN_RATE_le_AOA : MAX_HEAD_TURN_RATE ≤ ANGLE_OF_ACTION := by
  norm_num [MAX_HEAD_TURN_RATE, ANGLE_OF_ACTION, HALF_PI, PI]

/-- `clamp` produces a value within the bounds whenever they are ordered. -/
theorem clamp_mem (x lower upper : ℚ) (h : lower ≤ upper) :
    lower ≤ clamp x lower upper ∧ clamp x lower upper ≤ upper := by
  unfold clamp
  constructor
  · exact le_min (le_max_left _ _) h
  · exact min_le_right _ _

/-- `clamp` is the identity inside the bounds. -/
theorem clamp_eq_self (x lower upper : ℚ) (h1 : lower ≤ x) (h2 : x ≤ upper) :
    clamp x lower upper = x := by
  unfold clamp
  rw [max_eq_right h1, min_eq_left h2]

/-! ## C4: commutativity of `Sector.overlaps` -/

/-- C4.  For all sectors `S` and `T`, `Sector.overlaps` is commutative:
`S.overlaps T = T.overlaps S`.  The four-way containment check is
symmetric under exchanging the two sectors. -/
theorem sector_overlaps_comm (s t : Sector) : s.overlaps t = t.overlaps s := by
  simp only [Sector.overlaps]
  simp only [Bool.or_assoc, Bool.or_comm, Bool.or_left_comm]

/-! ## C3: head-turn clamping -/

/-- C3.  The head-turn delta recorded by `transition_heads` for a pending
angle `a` is `clamp a (-MAX_HEAD_TURN_RATE) MAX_HEAD_TURN_RATE`, further
reduced (never enlarged in magnitude) exactly when necessary to keep the
resulting head offset from the body heading within
`±ANGLE_OF_ACTION`; for a requested turn of `10` radians the recorded
delta is exactly `MAX_HEAD_TURN_RATE = 0.1` whenever the angle-of-action
bound does not bind, and the bound-keeping value `ANGLE_OF_ACTION -
head_heading` otherwise. -/
theorem transition_heads_clamps (e : PlayerEntry) (a : ℚ)
    (hh : |e.head_heading| ≤ ANGLE_OF_ACTION) :
    ∃ d : ℚ,
      transition_heads e a = [GameEvent.PlayerHeadTurned e.id d] ∧
      |e.head_heading + d| ≤ ANGLE_OF_ACTION ∧
      |d| ≤ |clamp a (-MAX_HEAD_TURN_RATE) MAX_HEAD_TURN_RATE| ∧
      (-ANGLE_OF_ACTION ≤ e.head_heading + clamp a (-MAX_HEAD_TURN_RATE) MAX_HEAD_TURN_RATE ∧
          e.head_heading + clamp a (-MAX_HEAD_TURN_RATE) MAX_HEAD_TURN_RATE ≤ ANGLE_OF_ACTION →
        d = clamp a (-MAX_HEAD_TURN_RATE) MAX_HEAD_TURN_RATE) ∧
      (a = 10 →
        (e.head_heading + MAX_HEAD_TURN_RATE ≤ ANGLE_OF_ACTION → d = MAX_HEAD_TURN_RATE) ∧
        (ANGLE_OF_ACTION < e.head_heading + MAX_HEAD_TURN_RATE →
          d = ANGLE_OF_ACTION - e.head_heading)) := by
  have haoa := ANGLE_OF_ACTION_pos
  have hrate : (0:ℚ) < MAX_HEAD_TURN_RATE := by norm_num [MAX_HEAD_TURN_RATE]
  set c := clamp a (-MAX_HEAD_TURN_RATE) MAX_HEAD_TURN_RATE with hc
  refine ⟨clamp_turn_angle (e.head_heading + c) - e.head_heading, rfl, ?_, ?_, ?_, ?_⟩
  · have := clamp_mem (e.head_heading + c) (-ANGLE_OF_ACTION) ANGLE_OF_ACTION (by linarith)
    rw [abs_le]
    unfold clamp_turn_angle
    constructor <;> linarith [this.1, this.2]
  · have hhh := abs_le.1 hh
    have hcb := clamp_mem a (-MAX_HEAD_TURN_RATE) MAX_HEAD_TURN_RATE (by linarith)
    rw [← hc] at hcb
    unfold clamp_turn_angle clamp
    rcases le_total c 0 with h0 | h0
    · have hd1 : min (max (-ANGLE_OF_ACTION) (e.head_heading + c)) ANGLE_OF_ACTION
          - e.head_heading ≤ 0 := by
        have h1 : max (-ANGLE_OF_ACTION) (e.head_heading + c) ≤ e.head_heading := by
          apply max_le <;> linarith
        have := min_le_left (max (-ANGLE_OF_ACTION) (e.head_heading + c)) ANGLE_OF_ACTION
        linarith
      have hd2 : c ≤ min (max (-ANGLE_OF_ACTION) (e.head_heading + c)) ANGLE_OF_ACTION
          - e.head_heading := by
        have h2 : e.head_heading + c ≤ max (-ANGLE_OF_ACTION) (e.head_heading + c) :=
          le_max_right _ _
        have h3 : e.head_heading + c ≤ ANGLE_OF_ACTION := by linarith
        have h4 : e.head_heading + c ≤
            min (max (-ANGLE_OF_ACTION) (e.head_heading + c)) ANGLE_OF_ACTION :=
          le_min h2 h3
        linarith
      rw [abs_of_nonpos hd1, abs_of_nonpos h0]
      linarith
    · have hd1 : min (max (-ANGLE_OF_ACTION) (e.head_heading + c)) ANGLE_OF_ACTION
          - e.head_heading ≤ c := by
        have h1 : min (max (-ANGLE_OF_ACTION) (e.head_heading + c)) ANGLE_OF_ACTION
            ≤ e.head_heading + c := by
          apply min_le_of_left_le
          apply max_le <;> linarith
        linarith
      have hd2 : 0 ≤ min (max (-ANGLE_OF_ACTION) (e.head_heading + c)) ANGLE_OF_ACTION
          - e.head_heading := by
        have h2 : e.head_heading ≤ max (-ANGLE_OF_ACTION) (e.head_heading + c) := by
          apply le_max_of_le_right
          linarith
        have h4 : e.head_heading ≤
            min (max (-ANGLE_OF_ACTION) (e.head_heading + c)) ANGLE_OF_ACTION := by
          apply le_min h2
          linarith
        linarith
      rw [abs_of_nonneg hd2, abs_of_nonneg h0]
      linarith
  · rintro ⟨h1, h2⟩
    unfold clamp_turn_angle
    rw [clamp_eq_self _ _ _ h1 h2]
    ring
  · rintro rfl
    have hc10 : c = MAX_HEAD_TURN_RATE := by
      rw [hc]
      unfold clamp
      rw [max_eq_right (by norm_num [MAX_HEAD_TURN_RATE]),
        min_eq_right (by norm_num [MAX_HEAD_TURN_RATE])]
    constructor
    · intro hbound
      rw [hc10]
      unfold clamp_turn_angle
      rw [clamp_eq_self _ _ _ (by linarith [abs_le.1 hh]) (by linarith)]
      ring
    · intro hbound
      rw [hc10]
      unfold clamp_turn_angle clamp
      rw [max_eq_right (by linarith [abs_le.1 hh]),
        min_eq_right (by linarith)]

/-! ## List toolbox -/

/-- `find?` on a filtered list is `find?` with the conjoined predicate:
searching the living players is searching all players for "living and
matching". -/
theorem find?_filter {α : Type} (l : List α) (q p : α → Bool) :
    (l.filter q).find? p = l.find? (fun x => q x && p x) := by
  induction l with
  | nil => rfl
  | cons x xs ih =>
    by_cases hq : q x
    · by_cases hp : p x
      · simp [List.filter_cons, List.find?, hq, hp]
      · simp [List.filter_cons, List.find?, hq, hp, ih]
    · simp [List.filter_cons, List.find?, hq, ih]

/-- Membership in `updateFirst`: every element of the updated list is an
original element or the image of one. -/
theorem mem_updateFirst {α : Type} (p : α → Bool) (f : α → α) (l : List α)
    (x : α) : x ∈ updateFirst p f l → x ∈ l ∨ ∃ y, y ∈ l ∧ x = f y := by
  induction l with
  | nil => intro hx; simp [updateFirst] at hx
  | cons e es ih =>
    intro hx
    cases hpe : p e with
    | true =>
      rw [updateFirst, if_pos hpe] at hx
      rcases List.mem_cons.1 hx with h | h
      · exact Or.inr ⟨e, List.mem_cons_self e es, h⟩
      · exact Or.inl (List.mem_cons_of_mem e h)
    | false =>
      rw [updateFirst, if_neg (by simp [hpe])] at hx
      rcases List.mem_cons.1 hx with h | h
      · exact Or.inl (h ▸ List.mem_cons_self e es)
      · rcases ih h with h2 | ⟨y, hy, hxy⟩
        · exact Or.inl (List.mem_cons_of_mem e h2)
        · exact Or.inr ⟨y, List.mem_cons_of_mem e hy, hxy⟩

/-- `find?` after `updateFirst` with the same predicate finds the
updated first match, as long as the update preserves the predicate. -/
theorem find?_updateFirst {α : Type} (p : α → Bool) (f : α → α)
    (hf : ∀ x, p x = true → p (f x) = true) (l : List α) :
    (updateFirst p f l).find? p = (l.find? p).map f := by
  induction l with
  | nil => rfl
  | cons e es ih =>
    by_cases hp : p e
    · simp [updateFirst, hp, List.find?, hf e hp]
    · simp [updateFirst, hp, List.find?, ih]

/-- `updateFirst` leaves every element whose key differs from the
targeted key unchanged (entries are identified by a key function that
the update preserves on the match). -/
theorem find?_updateFirst_ne {α : Type} (key : α → Nat) (k k' : Nat)
    (hkk : k ≠ k') (f : α → α) (hf : ∀ x, key (f x) = key x) (l : List α) :
    (updateFirst (fun e => key e == k) f l).find? (fun e => key e == k')
      = l.find? (fun e => key e == k') := by
  induction l with
  | nil => rfl
  | cons e es ih =>
    by_cases hp : key e = k
    · have h1 : (key e == k) = true := by simp [hp]
      have h2 : (key (f e) == k') = false := by simp [hf, hp, hkk]
      have h3 : (key e == k') = false := by simp [hp, hkk]
      simp [updateFirst, h1, List.find?, h2, h3]
    · have h1 : (key e == k) = false := by simp [hp]
      simp only [updateFirst, h1, Bool.false_eq_true, if_neg, not_false_iff,
        List.find?]
      cases h4 : (key e == k') <;> simp [ih]

/-! ## C5: one fate event per projectile per tick -/

/-- The event recorded for an attack always carries that attack's id,
whatever its fate. -/
theorem event_is_for_attack_attack_event (R : RealFuns) (g : Game) (aid : Nat)
    (b : Attack) : event_is_for_attack aid (attack_event R g b) = (b.id == aid) := by
  unfold attack_event
  split
  · split <;> rfl
  · rfl

/-- C5.  Every existing projectile gets exactly one fate event per tick
from `transition_attacks`: `AttackMissed` exactly when its advanced
position leaves the arena; otherwise `Hit` on the first living
non-owner player within `ATTACK_RADIUS + PLAYER_RADIUS` of the
projectile (first in map iteration order), and `AttackAdvanced` when
there is none. -/
theorem transition_attacks_one_fate (R : RealFuns) (g : Game) (a : Attack)
    (ha : a ∈ g.attacks) (hnd : (g.attacks.map Attack.id).Nodup) :
    (transition_attacks R g).countP (event_is_for_attack a.id) = 1 ∧
    (inside_arena (attack_next_pos R a) = false →
      GameEvent.AttackMissed a.id ∈ transition_attacks R g) ∧
    (inside_arena (attack_next_pos R a) = true →
      (∀ p, attack_hits_player R a g.living_players = some p →
        GameEvent.Hit a.id a.owner p.id (attack_next_pos R a)
          ∈ transition_attacks R g ∧ 0 < p.hp ∧ p.id ≠ a.owner) ∧
      (attack_hits_player R a g.living_players = none →
        GameEvent.AttackAdvanced a.id (attack_next_pos R a)
          ∈ transition_attacks R g)) ∧
    attack_hits_player R a g.living_players
      = g.players.find? (fun p =>
          p.alive && (decide (p.id ≠ a.owner) &&
            decide (a.pos.dist R p.pos ≤ ATTACK_RADIUS + PLAYER_RADIUS))) := by
  refine ⟨?_, ?_, ?_, ?_⟩
  · unfold transition_attacks
    rw [List.countP_map]
    have hcongr : ∀ b ∈ g.attacks,
        (event_is_for_attack a.id ∘ attack_event R g) b = (b.id == a.id) := by
      intro b _
      simp [Function.comp, event_is_for_attack_attack_event]
    rw [List.countP_congr fun b hb => by rw [hcongr b hb]]
    have h1 : (g.attacks.countP fun b => b.id == a.id)
        = (g.attacks.map Attack.id).count a.id := by
      rw [List.count, List.countP_map]
      rfl
    rw [h1]
    exact List.count_eq_one_of_mem hnd (List.mem_map_of_mem Attack.id ha)
  · intro hout
    have : attack_event R g a = .AttackMissed a.id := by
      unfold attack_event
      rw [hout]
      simp
    exact this ▸ List.mem_map_of_mem (attack_event R g) ha
  · intro hin
    constructor
    · intro p hp
      refine ⟨?_, ?_, ?_⟩
      · have : attack_event R g a
            = .Hit a.id a.owner p.id (attack_next_pos R a) := by
          unfold attack_event
          rw [hin, hp]
          simp
        exact this ▸ List.mem_map_of_mem (attack_event R g) ha
      · have hmem := List.mem_of_find?_eq_some hp
        have := List.of_mem_filter hmem
        simpa [PlayerEntry.alive] using this
      · have := List.find?_some hp
        simp only [Bool.and_eq_true, decide_eq_true_eq] at this
        exact this.1
    · intro hnone
      have : attack_event R g a
          = .AttackAdvanced a.id (attack_next_pos R a) := by
        unfold attack_event
        rw [hin, hnone]
        simp
      exact this ▸ List.mem_map_of_mem (attack_event R g) ha
  · unfold attack_hits_player Game.living_players
    exact find?_filter _ _ _

/-- Witness for C5: the projectile of `c5game`, owned by player `0` and
moving straight with the demo oracle, hits player `1` standing `3` units
away, and gets exactly one fate event. -/
theorem transition_attacks_one_fate_witness :
    (transition_attacks demoR c5game).countP (event_is_for_attack 5) = 1 ∧
    GameEvent.Hit 5 0 1 { x := 100, y := 195 / 2 }
      ∈ transition_attacks demoR c5game := by
  obtain ⟨h1, -, h3, -⟩ :=
    transition_attacks_one_fate demoR c5game c5attack
      (List.mem_singleton.2 rfl) (by simp [c5game, mkGame, c5attack])
  have hin : inside_arena (attack_next_pos demoR c5attack) = true := by
    simp only [inside_arena, attack_next_pos, line_endpoint, demoR, c5attack]
    norm_num [WIDTH, HEIGHT]
  have hfind : attack_hits_player demoR c5attack c5game.living_players
      = some c5victim := by
    simp only [attack_hits_player, Game.living_players, c5game, mkGame, c5victim,
      baseEntry, c5attack, PlayerEntry.alive, INITIAL_HP, PlayerIntent.default,
      List.filter, List.find?, Point.dist, Point.dist_sqr, demoR]
    norm_num [ATTACK_RADIUS, PLAYER_RADIUS]
  have hnp : attack_next_pos demoR c5attack = { x := 100, y := 195 / 2 } := by
    simp only [attack_next_pos, line_endpoint, demoR, c5attack]
    norm_num
  have hhit := (h3 hin).1 c5victim hfind
  refine ⟨h1, ?_⟩
  have := hhit.1
  rw [hnp] at this
  exact this

/-! ## C6: attack creation iff intent and zero cooldown -/

/-- Every `AttackCreated` event recorded by `create_attacks` comes from a
player whose intent requests an attack while its cooldown is zero. -/
theorem of_mem_create_attacks_aux (l : List PlayerEntry) (i : Nat) (atk : Attack) :
    ∀ ids, GameEvent.AttackCreated i atk ∈ (create_attacks_aux ids l).1 →
      ∃ e ∈ l, e.id = i ∧ e.intent.attack = true ∧ e.attack_cooldown = 0 := by
  induction l with
  | nil => intro ids h; simp [create_attacks_aux] at h
  | cons e es ih =>
    intro ids h
    by_cases hw : e.intent.attack && decide (e.attack_cooldown = 0)
    · rw [create_attacks_aux, if_pos hw] at h
      simp only [Bool.and_eq_true, decide_eq_true_eq] at hw
      rcases List.mem_cons.1 h with h1 | h1
      · exact ⟨e, List.mem_cons_self e es, by injection h1 with h2 _; exact h2.symm,
          hw.1, hw.2⟩
      · obtain ⟨y, hy, hprops⟩ := ih (ids + 1) h1
        exact ⟨y, List.mem_cons_of_mem e hy, hprops⟩
    · rw [create_attacks_aux, if_neg hw] at h
      obtain ⟨y, hy, hprops⟩ := ih ids h
      exact ⟨y, List.mem_cons_of_mem e hy, hprops⟩

/-- Every player whose intent requests an attack while its cooldown is
zero gets an `AttackCreated` event from `create_attacks`. -/
theorem mem_create_attacks_aux_of (l : List PlayerEntry) (e : PlayerEntry)
    (he : e ∈ l) (hatt : e.intent.attack = true) (hcd : e.attack_cooldown = 0) :
    ∀ ids, ∃ atk, GameEvent.AttackCreated e.id atk ∈ (create_attacks_aux ids l).1 := by
  induction l with
  | nil => cases he
  | cons x xs ih =>
    intro ids
    rcases List.mem_cons.1 he with h1 | h1
    · subst h1
      have hw : (e.intent.attack && decide (e.attack_cooldown = 0)) = true := by
        simp [hatt, hcd]
      rw [create_attacks_aux, if_pos hw]
      exact ⟨_, List.mem_cons_self _ _⟩
    · by_cases hw : x.intent.attack && decide (x.attack_cooldown = 0)
      · rw [create_attacks_aux, if_pos hw]
        obtain ⟨atk, hatk⟩ := ih h1 (ids + 1)
        exact ⟨atk, List.mem_cons_of_mem _ hatk⟩
      · rw [create_attacks_aux, if_neg hw]
        exact ih h1 ids

/-- C6.  A player has an `AttackCreated` event recorded in a tick iff its
intent's attack flag is set and its cooldown is zero; `create_attacks`
itself changes no player state, and applying the `AttackCreated` event
in the advancement step appends the attack, sets the owner's cooldown to
`ATTACK_COOLDOWN` and clears the intent's attack flag. -/
theorem create_attacks_iff_and_advance (g : Game) (e : PlayerEntry)
    (hnd : (g.players.map PlayerEntry.id).Nodup) (he : e ∈ g.players) :
    ((∃ atk, GameEvent.AttackCreated e.id atk ∈ (create_attacks g).1) ↔
      e.intent.attack = true ∧ e.attack_cooldown = 0) ∧
    (create_attacks g).2.players = g.players ∧
    ∀ (R : RealFuns) (atk : Attack),
      (advance_game_state R g [GameEvent.AttackCreated e.id atk]).attacks
          = g.attacks ++ [atk] ∧
      ∃ e', (advance_game_state R g [GameEvent.AttackCreated e.id atk]).players.find?
              (fun p => p.id == e.id) = some e' ∧
            e'.attack_cooldown = ATTACK_COOLDOWN ∧ e'.intent.attack = false := by
  refine ⟨⟨?_, ?_⟩, rfl, ?_⟩
  · rintro ⟨atk, hatk⟩
    obtain ⟨y, hy, hid, hflag, hcd⟩ :=
      of_mem_create_attacks_aux g.players e.id atk g.attack_ids hatk
    have hye : y = e := List.inj_on_of_nodup_map hnd hy he hid
    subst hye
    exact ⟨hflag, hcd⟩
  · rintro ⟨hflag, hcd⟩
    exact mem_create_attacks_aux_of g.players e he hflag hcd g.attack_ids
  · intro R atk
    refine ⟨rfl, ?_⟩
    have hsome : (g.players.find? (fun p => p.id == e.id)).isSome := by
      rw [List.find?_isSome]
      exact ⟨e, he, by simp⟩
    obtain ⟨y, hy⟩ := Option.isSome_iff_exists.1 hsome
    refine ⟨{ y with attack_cooldown := ATTACK_COOLDOWN, intent := { y.intent with attack := false } }, ?_, rfl, rfl⟩
    show (updateFirst (fun p => p.id == e.id)
        (fun x => { x with attack_cooldown := ATTACK_COOLDOWN, intent := { x.intent with attack := false } })
        g.players).find? (fun p => p.id == e.id) = _
    rw [find?_updateFirst (fun p => p.id == e.id)
      (fun x => { x with attack_cooldown := ATTACK_COOLDOWN, intent := { x.intent with attack := false } })
      (fun x hx => hx) g.players, hy]
    rfl

/-- Witness for C6: a player with the attack flag set and zero cooldown
gets an `AttackCreated` event, and advancing such an event resets its
cooldown to `ATTACK_COOLDOWN` and clears the flag. -/
theorem create_attacks_iff_and_advance_witness :
    (∃ atk, GameEvent.AttackCreated 0 atk
      ∈ (create_attacks (mkGame [{ baseEntry with
          intent := { PlayerIntent.default with attack := true } }])).1) ∧
    ∃ e', (advance_game_state demoR
            (mkGame [{ baseEntry with
              intent := { PlayerIntent.default with attack := true } }])
            [GameEvent.AttackCreated 0 c5attack]).players.find?
          (fun p => p.id == 0) = some e' ∧
        e'.attack_cooldown = ATTACK_COOLDOWN ∧ e'.intent.attack = false := by
  obtain ⟨hiff, -, hadv⟩ :=
    create_attacks_iff_and_advance
      (mkGame [{ baseEntry with
        intent := { PlayerIntent.default with attack := true } }])
      { baseEntry with intent := { PlayerIntent.default with attack := true } }
      (by simp [mkGame, baseEntry]) (List.mem_singleton.2 rfl)
  exact ⟨hiff.2 ⟨rfl, rfl⟩, (hadv demoR c5attack).2⟩

/-! ## C8: exactly one position-update event per player per tick -/

/-- The turn events of a player are never position updates. -/
theorem countP_pos_update_turn_events (e : PlayerEntry) (id : Nat) :
    (turn_events e).countP (is_pos_update id) = 0 := rfl

/-- `create_attacks` records no position updates. -/
theorem countP_pos_update_create_attacks_aux (id : Nat) (l : List PlayerEntry) :
    ∀ ids, ((create_attacks_aux ids l).1).countP (is_pos_update id) = 0 := by
  induction l with
  | nil => intro ids; rfl
  | cons e es ih =>
    intro ids
    by_cases hw : e.intent.attack && decide (e.attack_cooldown = 0)
    · rw [create_attacks_aux, if_pos hw]
      simp only [List.countP_cons]
      rw [ih (ids + 1)]
      rfl
    · rw [create_attacks_aux, if_neg hw]
      exact ih ids

/-- Fate events of attacks are never position updates. -/
theorem countP_pos_update_transition_attacks (R : RealFuns) (g : Game) (id : Nat) :
    (transition_attacks R g).countP (is_pos_update id) = 0 := by
  unfold transition_attacks
  rw [List.countP_map]
  apply List.countP_eq_zero.2
  intro a _
  have h : is_pos_update id (attack_event R g a) = false := by
    unfold attack_event
    split
    · split <;> rfl
    · rfl
  simp [Function.comp, h]

/-- Round-end events are never position updates. -/
theorem countP_pos_update_check_for_round_end (g : Game) (id : Nat) :
    (check_for_round_end g).countP (is_pos_update id) = 0 := by
  unfold check_for_round_end
  split <;> rfl

/-- The position-update event of a player always carries that player's
id, whether or not its movement was suppressed. -/
theorem is_pos_update_position_update_event (R : RealFuns)
    (nps : List (Nat × Delta × Point)) (p : PlayerEntry) (id : Nat) :
    is_pos_update id (position_update_event R nps p) = (p.id == id) := by
  unfold position_update_event
  split <;> rfl

/-- `transition_players` records exactly one position-update event for
every player (dead or alive), given distinct ids. -/
theorem transition_players_one_pos_update (R : RealFuns) (g : Game)
    (e : PlayerEntry) (hnd : (g.players.map PlayerEntry.id).Nodup)
    (he : e ∈ g.players) :
    (transition_players R g).countP (is_pos_update e.id) = 1 := by
  unfold transition_players
  rw [List.countP_append]
  have h1 : ((g.players.flatMap turn_events).countP (is_pos_update e.id)) = 0 := by
    apply List.countP_eq_zero.2
    intro ev hev
    obtain ⟨x, -, hx⟩ := List.mem_flatMap.1 hev
    have := countP_pos_update_turn_events x e.id
    rw [List.countP_eq_zero] at this
    exact this ev hx
  have h2 : ((g.players.map (position_update_event R (next_positions R g))).countP
      (is_pos_update e.id)) = 1 := by
    rw [List.countP_map]
    have hcongr : ∀ p ∈ g.players,
        (is_pos_update e.id ∘ position_update_event R (next_positions R g)) p
          = (p.id == e.id) := by
      intro p _
      simp [Function.comp, is_pos_update_position_update_event]
    rw [List.countP_congr fun p hp => by rw [hcongr p hp]]
    have h3 : (g.players.countP fun p => p.id == e.id)
        = (g.players.map PlayerEntry.id).count e.id := by
      rw [List.count, List.countP_map]
      rfl
    rw [h3]
    exact List.count_eq_one_of_mem hnd (List.mem_map_of_mem PlayerEntry.id he)
  rw [h1, h2]

/-- C8.  In every tick, each living player has exactly one
position-updated event in the tick's recorded batch (given the batch
open at tick start contains none, as `init_round` guarantees): no living
player is skipped and none receives two. -/
theorem step_exactly_one_position_update (R : RealFuns) (g : Game)
    (em : EventManager) (e : PlayerEntry)
    (hnd : (g.players.map PlayerEntry.id).Nodup) (he : e ∈ g.players)
    (halive : e.alive = true)
    (hem : em.current_events.events.countP (is_pos_update e.id) = 0) :
    ((step R g em).2.1.current_events.events.countP (is_pos_update e.id)) = 1 := by
  have hstep : (step R g em).2.1.current_events.events
      = (((em.init_tick g.tick).current_events.events
          ++ check_for_round_end g) ++ transition_players R g)
          ++ ((create_attacks g).1 ++ transition_attacks R (create_attacks g).2) := by
    simp [step, EventManager.recordAll, List.append_assoc]
  rw [hstep]
  have hinit : ((em.init_tick g.tick).current_events.events).countP
      (is_pos_update e.id) = 0 := by
    unfold EventManager.init_tick
    by_cases ht : g.tick = 0
    · rw [if_pos ht]
      show (em.current_events.events ++ [GameEvent.Tick g.tick]).countP _ = 0
      rw [List.countP_append, hem]
      rfl
    · rw [if_neg ht]
      rfl
  have htp : (transition_players R g).countP (is_pos_update e.id) = 1 :=
    transition_players_one_pos_update R g e hnd he
  have hca : ((create_attacks g).1).countP (is_pos_update e.id) = 0 :=
    countP_pos_update_create_attacks_aux e.id g.players g.attack_ids
  rw [List.countP_append, List.countP_append, List.countP_append, List.countP_append, hinit,
    countP_pos_update_check_for_round_end, htp, hca,
    countP_pos_update_transition_attacks]


/-- Witness for C8: a one-player game stepped from a fresh event manager
records exactly one position update for that player. -/
theorem step_exactly_one_position_update_witness :
    ((step demoR (mkGame [baseEntry]) emptyEM).2.1.current_events.events.countP
      (is_pos_update 0)) = 1 := by
  have h := step_exactly_one_position_update demoR (mkGame [baseEntry]) emptyEM
    baseEntry (by simp [mkGame]) (List.mem_singleton.2 rfl)
    (by simp [PlayerEntry.alive, baseEntry, INITIAL_HP])
    (by rfl)
  exact h

/-! ## C2: hit points have no floor at zero -/

/-- Counterexample to C2 as stated: applying a `Hit` event to a player
with `5` hit points leaves it at `-5`, not at `0` — the advancement step
subtracts `ATTACK_DAMAGE` with no floor, so reachable states have
negative hit points. -/
theorem hit_no_floor_counterexample :
    ∃ e', (advance_game_state demoR (mkGame [{ baseEntry with hp := 5 }])
        [GameEvent.Hit 0 1 0 Point.zero]).players = [e'] ∧
      e'.hp = -5 ∧ ¬(0 ≤ e'.hp) := by
  refine ⟨_, rfl, ?_, ?_⟩
  · show (5 : ℚ) - ATTACK_DAMAGE = -5
    norm_num [ATTACK_DAMAGE]
  · show ¬((0:ℚ) ≤ 5 - ATTACK_DAMAGE)
    norm_num [ATTACK_DAMAGE]

/-- C2, amended.  Applying a `Hit` event subtracts exactly
`ATTACK_DAMAGE` from the victim's hit points, with no floor at zero: hit
points may become negative (such a player merely stops being living). -/
theorem hit_subtracts_damage (R : RealFuns) (g : Game) (e : PlayerEntry)
    (aid owner : Nat) (pt : Point)
    (hnd : (g.players.map PlayerEntry.id).Nodup) (he : e ∈ g.players) :
    ∃ e', (advance_game_state R g [GameEvent.Hit aid owner e.id pt]).players.find?
            (fun p => p.id == e.id) = some e' ∧
          e'.hp = e.hp - ATTACK_DAMAGE := by
  have hfind : g.players.find? (fun p => p.id == e.id) = some e := by
    have hsome : (g.players.find? (fun p => p.id == e.id)).isSome := by
      rw [List.find?_isSome]
      exact ⟨e, he, by simp⟩
    obtain ⟨y, hy⟩ := Option.isSome_iff_exists.1 hsome
    have hyid : y.id = e.id := by
      have := List.find?_some hy
      simpa using this
    have hym : y ∈ g.players := List.mem_of_find?_eq_some hy
    rw [hy, List.inj_on_of_nodup_map hnd hym he hyid]
  refine ⟨{ e with hp := e.hp - ATTACK_DAMAGE }, ?_, rfl⟩
  show (updateFirst (fun p => p.id == e.id)
      (fun x => { x with hp := x.hp - ATTACK_DAMAGE }) g.players).find?
      (fun p => p.id == e.id) = _
  rw [find?_updateFirst (fun p => p.id == e.id)
    (fun x => { x with hp := x.hp - ATTACK_DAMAGE }) (fun x hx => hx) g.players,
    hfind]
  rfl

/-- Witness for the amended C2: the player of the counterexample game
ends at `5 - ATTACK_DAMAGE = -5` hit points. -/
theorem hit_subtracts_damage_witness :
    ∃ e', (advance_game_state demoR (mkGame [{ baseEntry with hp := 5 }])
            [GameEvent.Hit 0 1 0 Point.zero]).players.find?
          (fun p => p.id == 0) = some e' ∧ e'.hp = 5 - ATTACK_DAMAGE := by
  exact hit_subtracts_damage demoR (mkGame [{ baseEntry with hp := 5 }])
    { baseEntry with hp := 5 } 0 1 Point.zero (by simp [mkGame])
    (List.mem_singleton.2 rfl)

/-! ## C9: only the body heading is a normalized absolute angle -/

/-- `normalize_absolute_angle` lands in `[0, 2π)`. -/
theorem normalize_absolute_angle_bounds (a : ℚ) :
    0 ≤ normalize_absolute_angle a ∧ normalize_absolute_angle a < TWO_PI := by
  induction a using normalize_absolute_angle.induct with
  | case1 a h ih => rw [normalize_absolute_angle, if_pos h]; exact ih
  | case2 a h1 h2 ih =>
    rw [normalize_absolute_angle, if_neg h1, if_pos h2]
    exact ih
  | case3 a h1 h2 =>
    rw [normalize_absolute_angle, if_neg h1, if_neg h2]
    constructor
    · linarith [not_lt.1 h2]
    · linarith [not_le.1 h1]

/-- Counterexample to C9 as stated: advancing a `PlayerHeadTurned` event
with delta `-0.1` stores the head heading `-0.1`, which is not an angle
normalized into `[0, 2π)` — the stored head (and arms) headings are
offsets from the body heading, and the head offset is stored without any
normalization. -/
theorem head_heading_not_normalized_counterexample :
    ∃ e', (advance_game_state demoR (mkGame [baseEntry])
        [GameEvent.PlayerHeadTurned 0 (-(1/10))]).players = [e'] ∧
      e'.head_heading = -(1/10) ∧
      ¬(0 ≤ e'.head_heading ∧ e'.head_heading < TWO_PI) := by
  refine ⟨_, rfl, ?_, ?_⟩
  · show (0 : ℚ) + -(1/10) = -(1/10)
    norm_num
  · show ¬((0:ℚ) ≤ 0 + -(1/10) ∧ (0:ℚ) + -(1/10) < TWO_PI)
    rintro ⟨h, -⟩
    norm_num at h

/-- Every advancement step maps each player to itself or to an image
whose body heading is either unchanged or freshly normalized. -/
theorem advance_event_heading_mem (R : RealFuns) (g : Game) (ev : GameEvent)
    (e' : PlayerEntry) (he' : e' ∈ (advance_event R g ev).players) :
    (∃ e ∈ g.players, e'.heading = e.heading) ∨
    (∃ a : ℚ, e'.heading = normalize_absolute_angle a) := by
  cases ev with
  | Tick n =>
    obtain ⟨x, hx, hfx⟩ := List.mem_map.1 he'
    refine Or.inl ⟨x, hx, ?_⟩
    by_cases h : 0 < x.attack_cooldown
    · rw [← hfx]
      simp only [h, if_pos]
    · rw [← hfx]
      simp only [h, if_neg, Bool.false_eq_true, not_false_iff]
  | RoundStarted r ps => exact Or.inl ⟨e', he', rfl⟩
  | RoundOver w => exact Or.inl ⟨e', he', rfl⟩
  | AttackAdvanced i p => exact Or.inl ⟨e', he', rfl⟩
  | AttackMissed i => exact Or.inl ⟨e', he', rfl⟩
  | PlayerTurned i d =>
    rcases mem_updateFirst _ _ _ _ he' with h | ⟨y, hy, hxy⟩
    · exact Or.inl ⟨e', h, rfl⟩
    · exact Or.inr ⟨y.heading + d, by rw [hxy]⟩
  | PlayerHeadTurned i d =>
    rcases mem_updateFirst _ _ _ _ he' with h | ⟨y, hy, hxy⟩
    · exact Or.inl ⟨e', h, rfl⟩
    · exact Or.inl ⟨y, hy, by rw [hxy]⟩
  | PlayerArmsTurned i d =>
    rcases mem_updateFirst _ _ _ _ he' with h | ⟨y, hy, hxy⟩
    · exact Or.inl ⟨e', h, rfl⟩
    · exact Or.inl ⟨y, hy, by rw [hxy]⟩
  | PlayerPositionUpdated i d =>
    rcases mem_updateFirst _ _ _ _ he' with h | ⟨y, hy, hxy⟩
    · exact Or.inl ⟨e', h, rfl⟩
    · exact Or.inl ⟨y, hy, by rw [hxy]⟩
  | Hit a o v p =>
    rcases mem_updateFirst _ _ _ _ he' with h | ⟨y, hy, hxy⟩
    · exact Or.inl ⟨e', h, rfl⟩
    · exact Or.inl ⟨y, hy, by rw [hxy]⟩
  | AttackCreated o atk =>
    rcases mem_updateFirst _ _ _ _ he' with h | ⟨y, hy, hxy⟩
    · exact Or.inl ⟨e', h, rfl⟩
    · exact Or.inl ⟨y, hy, by rw [hxy]⟩

/-- C9, amended.  In every state reachable by applying recorded game
events, each player's *body* heading is an absolute angle normalized
into `[0, 2π)` (it starts at `0` and is re-normalized by every
`PlayerTurned` advancement); the stored head and arms headings are
offsets from the body heading, not themselves normalized absolute
angles (see the counterexample). -/
theorem advance_preserves_heading_normalized (R : RealFuns) (events : List GameEvent) :
    ∀ g : Game, (∀ e ∈ g.players, 0 ≤ e.heading ∧ e.heading < TWO_PI) →
    ∀ e' ∈ (advance_game_state R g events).players,
      0 ≤ e'.heading ∧ e'.heading < TWO_PI := by
  induction events with
  | nil => intro g hg e' he'; exact hg e' he'
  | cons ev evs ih =>
    intro g hg e' he'
    refine ih (advance_event R g ev) ?_ e' he'
    intro x hx
    rcases advance_event_heading_mem R g ev x hx with ⟨y, hy, hxy⟩ | ⟨a, hxa⟩
    · rw [hxy]
      exact hg y hy
    · rw [hxa]
      exact normalize_absolute_angle_bounds a

/-- Witness for the amended C9: advancing a full tick's worth of events
on a fresh one-player game leaves the body heading inside `[0, 2π)`. -/
theorem advance_preserves_heading_normalized_witness :
    ∃ e', (advance_game_state demoR (mkGame [baseEntry])
        [GameEvent.Tick 3, GameEvent.PlayerTurned 0 10,
         GameEvent.PlayerHeadTurned 0 (-(1/10))]).players = [e'] ∧
      0 ≤ e'.heading ∧ e'.heading < TWO_PI := by
  have hbase : ∀ e ∈ (mkGame [baseEntry]).players,
      0 ≤ e.heading ∧ e.heading < TWO_PI := by
    intro e he
    rw [List.mem_singleton.1 he]
    show (0:ℚ) ≤ 0 ∧ (0:ℚ) < TWO_PI
    exact ⟨le_refl 0, TWO_PI_pos⟩
  have h := advance_preserves_heading_normalized demoR
    [GameEvent.Tick 3, GameEvent.PlayerTurned 0 10,
     GameEvent.PlayerHeadTurned 0 (-(1/10))] (mkGame [baseEntry]) hbase
  exact ⟨_, rfl, h _ (List.mem_singleton.2 rfl)⟩

/-! ## C1: a blocked move zeroes the remaining intended distance

Claim C1 says a character whose candidate position is invalid gets a
zero-delta event and keeps both its position *and* its remaining
intended distance.  The first two parts hold, but the advancement of
`PlayerPositionUpdated` computes `d = pos.dist(&Point::zero())` — the
norm of the *position* (the `// TODO: length of a Vec2` in the source
indicates the length of the delta vector was meant) — and sets
`distance = max(distance - d, 0)`, so a blocked player at `(18, 24)`
with `5` left to walk ends the tick with `0` left, not `5`. -/

set_option maxRecDepth 4000 in
/-- C1 (evaluation at the failing input).  The blocked player of
`c1game` gets a zero-delta event and keeps its position, but its
remaining intended distance drops from `5` to `max (5 - 30) 0 = 0`
because the advancement subtracts the norm of its position `(18, 24)`
instead of the length of the (zero) delta. -/
theorem blocked_move_loses_remaining_distance :
    transition_players demoR c1game
      = [GameEvent.PlayerTurned 0 0, GameEvent.PlayerHeadTurned 0 0,
         GameEvent.PlayerArmsTurned 0 0,
         GameEvent.PlayerPositionUpdated 0 (Delta.new Point.zero)] ∧
    ((advance_game_state demoR c1game (transition_players demoR c1game)).players.map
      (fun e => (e.pos, e.intent.distance))) = [({ x := 18, y := 24 }, 0)] ∧
    c1entry.intent.distance = 5 := by
  have hn0 : normalize_absolute_angle 0 = 0 := by
    rw [normalize_absolute_angle]
    norm_num [TWO_PI, PI]
  have h1 : transition_players demoR c1game
      = [GameEvent.PlayerTurned 0 0, GameEvent.PlayerHeadTurned 0 0,
         GameEvent.PlayerArmsTurned 0 0,
         GameEvent.PlayerPositionUpdated 0 (Delta.new Point.zero)] := by
    norm_num [transition_players, turn_events, transition_heads, transition_arms,
      next_positions, next_position, position_update_event, candidate_of,
      collides_with_any, players_collide, valid_position, clamp_turn_angle, clamp,
      min_def, max_def, hn0, MAX_TURN_RATE,
      MAX_HEAD_TURN_RATE, MAX_ARMS_TURN_RATE, ANGLE_OF_ACTION, HALF_PI, PI,
      MAX_VELOCITY, PLAYER_RADIUS, WIDTH, HEIGHT, c1game, c1entry, baseEntry,
      mkGame, PlayerIntent.default, demoR, Point.add, Point.zero, Delta.new,
      Point.dist, Point.dist_sqr, List.lookup]
  refine ⟨h1, ?_, rfl⟩
  rw [h1]
  norm_num [advance_game_state, advance_event, updateFirst, hn0,
    clamp_turn_angle, clamp, min_def, max_def, MAX_TURN_RATE,
    MAX_HEAD_TURN_RATE, MAX_ARMS_TURN_RATE, ANGLE_OF_ACTION, HALF_PI, PI,
    ATTACK_DAMAGE, c1game, c1entry, baseEntry, mkGame, PlayerIntent.default,
    demoR, Point.add, Point.zero, Delta.new, Point.dist, Point.dist_sqr]

/-! ## C10: dead players stay in every stage except hit detection -/

/-- If the loop of `run_players` finishes without an adapter error, then
every player in the list — regardless of hit points — was actually
processed: its projected events were dispatched to its adapter and the
returned commands folded into its intent. -/
theorem run_players_aux_processes_all (R : RealFuns)
    (positions : List (Nat × String × Point)) (events : List GameEvent)
    (l : List PlayerEntry) :
    (run_players_aux R positions events l).2 = none →
    ∀ e ∈ l, ∃ e', e' ∈ (run_players_aux R positions events l).1 ∧
      process_player R positions events e = .ok e' := by
  induction l with
  | nil => intro _ e he; cases he
  | cons x xs ih =>
    intro hok e he
    cases hpp : process_player R positions events x with
    | error err =>
      rw [run_players_aux, hpp] at hok
      cases hok
    | ok x' =>
      rw [run_players_aux, hpp] at hok ⊢
      rcases List.mem_cons.1 he with h1 | h1
      · exact ⟨x', List.mem_cons_self _ _, h1 ▸ hpp⟩
      · obtain ⟨e', he', hpe⟩ := ih hok e h1
        exact ⟨e', List.mem_cons_of_mem _ he', hpe⟩

/-- C10.  A player with `hp ≤ 0` is still fed through every per-tick
stage except projectile hit detection: `transition_players` records its
body-turn event and exactly one position update for it, `create_attacks`
spawns its projectile when intent and cooldown allow, and `run_players`
still dispatches its projected events and applies the returned commands
to its intent; only `attack_hits_player` — which searches the living
players — can never select it. -/
theorem dead_player_still_processed (R : RealFuns) (g : Game) (e : PlayerEntry)
    (hnd : (g.players.map PlayerEntry.id).Nodup) (he : e ∈ g.players)
    (hdead : e.hp ≤ 0) :
    (GameEvent.PlayerTurned e.id
        (clamp e.intent.turn_angle (-MAX_TURN_RATE) MAX_TURN_RATE)
      ∈ transition_players R g) ∧
    ((transition_players R g).countP (is_pos_update e.id) = 1) ∧
    (e.intent.attack = true → e.attack_cooldown = 0 →
      ∃ atk, GameEvent.AttackCreated e.id atk ∈ (create_attacks g).1) ∧
    (∀ (a : Attack) (p : PlayerEntry),
      attack_hits_player R a g.living_players = some p → p.id ≠ e.id) ∧
    (∀ events, (run_players R g events).2 = none →
      ∃ e', e' ∈ (run_players R g events).1.players ∧
        process_player R (g.players.map (fun p => (p.id, p.meta.name, p.pos)))
          events e = .ok e') := by
  refine ⟨?_, transition_players_one_pos_update R g e hnd he, ?_, ?_, ?_⟩
  · apply List.mem_append_left
    apply List.mem_flatMap.2
    exact ⟨e, he, List.mem_cons_self _ _⟩
  · intro hflag hcd
    exact mem_create_attacks_aux_of g.players e he hflag hcd g.attack_ids
  · intro a p hp
    have hmem := List.mem_of_find?_eq_some hp
    have halive : p.alive = true := List.of_mem_filter hmem
    have hpm : p ∈ g.players := List.mem_of_mem_filter hmem
    intro hid
    have hpe : p = e := List.inj_on_of_nodup_map hnd hpm he hid
    rw [hpe, PlayerEntry.alive, decide_eq_true_eq] at halive
    linarith
  · intro events hok
    exact run_players_aux_processes_all R _ events g.players hok e he

/-- Witness for C10: a dead player (`hp = 0`) with the attack flag set
still gets its turn event, its position update, its projectile, and is
still processed by `run_players`. -/
theorem dead_player_still_processed_witness :
    (GameEvent.PlayerTurned 0 (clamp 0 (-MAX_TURN_RATE) MAX_TURN_RATE)
      ∈ transition_players demoR
          (mkGame [{ baseEntry with
            hp := 0
            intent := { PlayerIntent.default with attack := true } }])) ∧
    (∃ atk, GameEvent.AttackCreated 0 atk
      ∈ (create_attacks (mkGame [{ baseEntry with
          hp := 0
          intent := { PlayerIntent.default with attack := true } }])).1) ∧
    (∃ e', e' ∈ (run_players demoR
          (mkGame [{ baseEntry with
            hp := 0
            intent := { PlayerIntent.default with attack := true } }]) []).1.players ∧
      process_player demoR
          ((mkGame [{ baseEntry with
            hp := 0
            intent := { PlayerIntent.default with attack := true } }]).players.map
            (fun p => (p.id, p.meta.name, p.pos))) []
          { baseEntry with
            hp := 0
            intent := { PlayerIntent.default with attack := true } } = .ok e') := by
  obtain ⟨h1, -, h3, -, h5⟩ :=
    dead_player_still_processed demoR
      (mkGame [{ baseEntry with
        hp := 0
        intent := { PlayerIntent.default with attack := true } }])
      { baseEntry with
        hp := 0
        intent := { PlayerIntent.default with attack := true } }
      (by simp [mkGame]) (List.mem_singleton.2 rfl) le_rfl
  refine ⟨h1, h3 rfl rfl, h5 [] ?_⟩
  rfl

/-! ## C7: the round-ended event is recorded exactly once -/

/-- `transition_players` records no round-ended events. -/
theorem countP_round_over_transition_players (R : RealFuns) (g : Game) :
    (transition_players R g).countP is_round_over = 0 := by
  unfold transition_players
  rw [List.countP_append]
  have h1 : ((g.players.flatMap turn_events).countP is_round_over) = 0 := by
    apply List.countP_eq_zero.2
    intro ev hev
    obtain ⟨x, -, hx⟩ := List.mem_flatMap.1 hev
    have hturn : (turn_events x).countP is_round_over = 0 := rfl
    rw [List.countP_eq_zero] at hturn
    exact hturn ev hx
  have h2 : ((g.players.map (position_update_event R (next_positions R g))).countP
      is_round_over) = 0 := by
    rw [List.countP_map]
    apply List.countP_eq_zero.2
    intro p _
    have h : is_round_over (position_update_event R (next_positions R g) p) = false := by
      unfold position_update_event
      split <;> rfl
    simp [Function.comp, h]
  rw [h1, h2]

/-- `create_attacks` records no round-ended events. -/
theorem countP_round_over_create_attacks_aux (l : List PlayerEntry) :
    ∀ ids, ((create_attacks_aux ids l).1).countP is_round_over = 0 := by
  induction l with
  | nil => intro ids; rfl
  | cons e es ih =>
    intro ids
    by_cases hw : e.intent.attack && decide (e.attack_cooldown = 0)
    · rw [create_attacks_aux, if_pos hw]
      simp only [List.countP_cons]
      rw [ih (ids + 1)]
      rfl
    · rw [create_attacks_aux, if_neg hw]
      exact ih ids

/-- `transition_attacks` records no round-ended events. -/
theorem countP_round_over_transition_attacks (R : RealFuns) (g : Game) :
    (transition_attacks R g).countP is_round_over = 0 := by
  unfold transition_attacks
  rw [List.countP_map]
  apply List.countP_eq_zero.2
  intro a _
  have h : is_round_over (attack_event R g a) = false := by
    unfold attack_event
    split
    · split <;> rfl
    · rfl
  simp [Function.comp, h]

/-- `check_for_round_end` emits the round-ended event exactly when at
most one player is living. -/
theorem check_for_round_end_shape (g : Game) :
    (g.living_players = [] → check_for_round_end g = [GameEvent.RoundOver none]) ∧
    (∀ p, g.living_players = [p] →
      check_for_round_end g = [GameEvent.RoundOver (some p.id)]) ∧
    ((check_for_round_end g).countP is_round_over
      = if g.living_players.length ≤ 1 then 1 else 0) := by
  refine ⟨?_, ?_, ?_⟩
  · intro h
    unfold check_for_round_end
    rw [h]
  · intro p h
    unfold check_for_round_end
    rw [h]
  · unfold check_for_round_end
    rcases hl : g.living_players with - | ⟨p, - | ⟨q, rest⟩⟩
    · rfl
    · rfl
    · rw [if_neg (by simp)]
      rfl

/-- Advancing any event other than `RoundOver` leaves the round state
unchanged. -/
theorem advance_event_round_state (R : RealFuns) (g : Game) (ev : GameEvent)
    (h : is_round_over ev = false) :
    (advance_event R g ev).round_state = g.round_state := by
  cases ev <;> first | rfl | exact absurd h (by simp [is_round_over])

/-- Advancing a list free of `RoundOver` events leaves the round state
unchanged. -/
theorem advance_round_state_of_no_round_over (R : RealFuns)
    (events : List GameEvent) :
    (∀ ev ∈ events, is_round_over ev = false) →
    ∀ g : Game, (advance_game_state R g events).round_state = g.round_state := by
  induction events with
  | nil => intro _ g; rfl
  | cons ev evs ih =>
    intro h g
    show (advance_game_state R (advance_event R g ev) evs).round_state = _
    rw [ih (fun x hx => h x (List.mem_cons_of_mem ev hx)) (advance_event R g ev),
      advance_event_round_state R g ev (h ev (List.mem_cons_self ev evs))]

/-- Splitting an advancement fold. -/
theorem advance_game_state_append (R : RealFuns) (g : Game)
    (l1 l2 : List GameEvent) :
    advance_game_state R g (l1 ++ l2)
      = advance_game_state R (advance_game_state R g l1) l2 :=
  List.foldl_append _ _ _ _

/-- `run_players` never changes the round state. -/
theorem run_players_round_state (R : RealFuns) (g : Game)
    (events : List GameEvent) :
    (run_players R g events).1.round_state = g.round_state := rfl

/-- Once a step leaves the round state non-`Ongoing` (or fails), the
round loop performs that step and stops, whatever fuel remains. -/
theorem round_loop_stops (R : RealFuns) (fuel : Nat) (g : Game)
    (em : EventManager)
    (h : (step R g em).1.round_state ≠ RoundState.Ongoing) :
    round_loop R (fuel + 1) g em
      = ((step R g em).1, (step R g em).2.1, (step R g em).2.2) := by
  show (match (step R g em).2.2 with
    | some err => ((step R g em).1, (step R g em).2.1, some err)
    | none =>
      match (step R g em).1.round_state with
      | RoundState.Ongoing => round_loop R fuel (step R g em).1 (step R g em).2.1
      | _ => ((step R g em).1, (step R g em).2.1, none)) = _
  cases herr : (step R g em).2.2 with
  | some err => rfl
  | none =>
    cases hrs : (step R g em).1.round_state with
    | Ongoing => exact absurd hrs h
    | Won w => rfl
    | Draw => rfl

/-- The batch recorded by a `step`, split into its stages. -/
theorem step_batch (R : RealFuns) (g : Game) (em : EventManager) :
    (step R g em).2.1.current_events.events
      = (((em.init_tick g.tick).current_events.events
          ++ check_for_round_end g) ++ transition_players R g)
          ++ ((create_attacks g).1 ++ transition_attacks R (create_attacks g).2) := by
  simp [step, EventManager.recordAll, List.append_assoc]

/-- The batch left open at tick start contributes no round-ended events
(given the previous batch carried none). -/
theorem countP_round_over_init_tick (em : EventManager) (tick : Nat)
    (hem : em.current_events.events.countP is_round_over = 0) :
    ((em.init_tick tick).current_events.events).countP is_round_over = 0 := by
  unfold EventManager.init_tick
  by_cases ht : tick = 0
  · rw [if_pos ht]
    show (em.current_events.events ++ [GameEvent.Tick tick]).countP _ = 0
    rw [List.countP_append, hem]
    rfl
  · rw [if_neg ht]
    rfl

/-- C7.  At a tick boundary, the step records a round-ended event iff at
most one player is living — exactly once in the tick's batch; with
exactly one living player `p` it is `RoundOver (some p.id)` and the
advanced state is `Won p.id`, with none it is `RoundOver none` and the
state is `Draw`, and in both cases the round loop performs that one step
and terminates, whatever fuel remains; with two or more living players
no round-ended event is recorded. -/
theorem round_end_recorded_once (R : RealFuns) (g : Game) (em : EventManager)
    (hem : em.current_events.events.countP is_round_over = 0) :
    ((step R g em).2.1.current_events.events.countP is_round_over
        = if g.living_players.length ≤ 1 then 1 else 0) ∧
    (∀ p, g.living_players = [p] →
      GameEvent.RoundOver (some p.id) ∈ (step R g em).2.1.current_events.events ∧
      (step R g em).1.round_state = RoundState.Won p.id ∧
      ∀ fuel, round_loop R (fuel + 1) g em
        = ((step R g em).1, (step R g em).2.1, (step R g em).2.2)) ∧
    (g.living_players = [] →
      GameEvent.RoundOver none ∈ (step R g em).2.1.current_events.events ∧
      (step R g em).1.round_state = RoundState.Draw ∧
      ∀ fuel, round_loop R (fuel + 1) g em
        = ((step R g em).1, (step R g em).2.1, (step R g em).2.2)) := by
  obtain ⟨hcre0, hcre1, hcrec⟩ := check_for_round_end_shape g
  have hbatch := step_batch R g em
  have hinit := countP_round_over_init_tick em g.tick hem
  have hinitall : ∀ ev ∈ (em.init_tick g.tick).current_events.events,
      is_round_over ev = false :=
    fun ev hev => by simpa using List.countP_eq_zero.1 hinit ev hev
  have htp := countP_round_over_transition_players R g
  have htpall : ∀ ev ∈ transition_players R g, is_round_over ev = false :=
    fun ev hev => by simpa using List.countP_eq_zero.1 htp ev hev
  have hca : ((create_attacks g).1).countP is_round_over = 0 :=
    countP_round_over_create_attacks_aux g.players g.attack_ids
  have hcaall : ∀ ev ∈ (create_attacks g).1, is_round_over ev = false :=
    fun ev hev => by simpa using List.countP_eq_zero.1 hca ev hev
  have hta := countP_round_over_transition_attacks R (create_attacks g).2
  have htaall : ∀ ev ∈ transition_attacks R (create_attacks g).2,
      is_round_over ev = false :=
    fun ev hev => by simpa using List.countP_eq_zero.1 hta ev hev
  have hcount : (step R g em).2.1.current_events.events.countP is_round_over
      = if g.living_players.length ≤ 1 then 1 else 0 := by
    rw [hbatch, List.countP_append, List.countP_append, List.countP_append,
      List.countP_append, hinit, hcrec, htp, hca, hta]
    omega
  -- The round state of the advanced game, when `check_for_round_end`
  -- emitted exactly `[RoundOver w]`.
  have hstate : ∀ w, check_for_round_end g = [GameEvent.RoundOver w] →
      (step R g em).1.round_state
        = (match w with
          | some v => RoundState.Won v
          | none => RoundState.Draw) := by
    intro w hw
    have hg1 : (step R g em).1
        = (run_players R
            (advance_game_state R (create_attacks g).2
              (step R g em).2.1.current_events.events)
            (step R g em).2.1.current_events.events).1 := by
      simp [step, EventManager.recordAll]
    rw [hg1, run_players_round_state]
    rw [hbatch, hw]
    have hsplit :
        (((em.init_tick g.tick).current_events.events
          ++ [GameEvent.RoundOver w]) ++ transition_players R g)
          ++ ((create_attacks g).1 ++ transition_attacks R (create_attacks g).2)
        = ((em.init_tick g.tick).current_events.events
            ++ [GameEvent.RoundOver w])
          ++ (transition_players R g
            ++ ((create_attacks g).1 ++ transition_attacks R (create_attacks g).2)) := by
      simp [List.append_assoc]
    have hrest : ∀ ev ∈ transition_players R g
        ++ ((create_attacks g).1 ++ transition_attacks R (create_attacks g).2),
        is_round_over ev = false := by
      intro ev hev
      rcases List.mem_append.1 hev with h | h
      · exact htpall ev h
      · rcases List.mem_append.1 h with h2 | h2
        · exact hcaall ev h2
        · exact htaall ev h2
    rw [hsplit, advance_game_state_append,
      advance_round_state_of_no_round_over R _ hrest, advance_game_state_append]
    show (advance_event R _ (GameEvent.RoundOver w)).round_state = _
    cases w <;> rfl
  have hmem : ∀ w, check_for_round_end g = [GameEvent.RoundOver w] →
      GameEvent.RoundOver w ∈ (step R g em).2.1.current_events.events := by
    intro w hw
    rw [hbatch, hw]
    apply List.mem_append_left
    apply List.mem_append_left
    apply List.mem_append_right
    exact List.mem_cons_self _ _
  refine ⟨hcount, ?_, ?_⟩
  · intro p hp
    have hw := hcre1 p hp
    refine ⟨hmem _ hw, hstate _ hw, ?_⟩
    intro fuel
    apply round_loop_stops
    rw [hstate _ hw]
    intro hcontra
    cases hcontra
  · intro hp
    have hw := hcre0 hp
    refine ⟨hmem _ hw, hstate _ hw, ?_⟩
    intro fuel
    apply round_loop_stops
    rw [hstate _ hw]
    intro hcontra
    cases hcontra

/-- Witness for C7: a one-player game records `RoundOver (some 0)` once,
advances to `Won 0`, and the round loop stops after that single step. -/
theorem round_end_recorded_once_witness :
    ((step demoR (mkGame [baseEntry]) emptyEM).2.1.current_events.events.countP
        is_round_over = 1) ∧
    GameEvent.RoundOver (some 0)
      ∈ (step demoR (mkGame [baseEntry]) emptyEM).2.1.current_events.events ∧
    (step demoR (mkGame [baseEntry]) emptyEM).1.round_state = RoundState.Won 0 ∧
    round_loop demoR 5 (mkGame [baseEntry]) emptyEM
      = ((step demoR (mkGame [baseEntry]) emptyEM).1,
         (step demoR (mkGame [baseEntry]) emptyEM).2.1,
         (step demoR (mkGame [baseEntry]) emptyEM).2.2) := by
  have hl : (mkGame [baseEntry]).living_players = [baseEntry] := by
    norm_num [Game.living_players, mkGame, baseEntry, PlayerEntry.alive,
      INITIAL_HP, List.filter]
  obtain ⟨hcount, hone, -⟩ :=
    round_end_recorded_once demoR (mkGame [baseEntry]) emptyEM rfl
  obtain ⟨hmem, hwon, hloop⟩ := hone baseEntry hl
  refine ⟨?_, hmem, hwon, hloop 4⟩
  rw [hcount, hl]
  rfl

/-- Witness for C3: a head at offset `0` requesting a `10`-radian turn
records a delta of exactly `MAX_HEAD_TURN_RATE = 0.1`. -/
theorem transition_heads_clamps_witness :
    ∃ e : PlayerEntry, e.head_heading = 0 ∧ e.id = 7 ∧
      transition_heads e 10 = [GameEvent.PlayerHeadTurned 7 MAX_HEAD_TURN_RATE] := by
  refine ⟨{ id := 7, hp := 100,
            meta := { name := "w", color := ⟨0, 0, 0⟩, version := "1", entrypoint := "m" },
            pos := Point.zero, heading := 0, head_heading := 0, arms_heading := 0,
            attack_cooldown := 0, onEvent := fun _ => .ok PlayerCommands.none,
            intent := PlayerIntent.default }, rfl, rfl, ?_⟩
  obtain ⟨d, hev, -, -, -, hten⟩ :=
    transition_heads_clamps
      { id := 7, hp := 100,
        meta := { name := "w", color := ⟨0, 0, 0⟩, version := "1", entrypoint := "m" },
        pos := Point.zero, heading := 0, head_heading := 0, arms_heading := 0,
        attack_cooldown := 0, onEvent := fun _ => .ok PlayerCommands.none,
        intent := PlayerIntent.default } 10
      (by norm_num [ANGLE_OF_ACTION, HALF_PI, PI])
  have hd : d = MAX_HEAD_TURN_RATE := by
    apply (hten rfl).1
    norm_num [MAX_HEAD_TURN_RATE, ANGLE_OF_ACTION, HALF_PI, PI]
  rw [hev, hd]

end Luarena
